import Mathlib

/-!
Verification development for the PMS-Monitoring scheduling engine.

The Python source is shallowly embedded as follows.

* A `datetime` value is a timestamp in seconds (`Nat`); `timedelta(days = n)`
  is `addDays`, and the `.date()` projection is `dateOf` (division by the
  number of seconds per day), so two timestamps on the same calendar day with
  different times of day are distinguishable.
* A date-valued input that may be absent (`None` / empty, falsy in Python) or
  a string rejected by `datetime.fromisoformat` is a `DateField`; a stored
  date column that may be absent or unparseable is an `Option Nat`.
* Database tables are lists of records; `select ... eq id` is `find?` on the
  id field, a row update keyed by id is a `map` that rewrites the matching
  record, and `order by created_at` is an insertion sort on the `created_at`
  field (the relational store is an external collaborator; the sort models
  its `order` clause).
* The functions keep the names of the Python functions they embed
  (`calculate_next_pms_from_contract_date`, `generate_full_pms_schedule`,
  `check_expired_contracts`, ...).
-/

namespace PMS

/-- Seconds per day: the granularity at which `timedelta(days = n)` acts. -/
def daySecs : Nat := 86400

/-- `t + timedelta(days = n)` on a timestamp. -/
def addDays (t : Nat) (n : Nat) : Nat := t + n * daySecs

/-- The `.date()` projection of a timestamp: its calendar-day number. -/
def dateOf (t : Nat) : Nat := t / daySecs

/-- A caller- or store-supplied date value: absent (`None` or empty string,
falsy in Python), a nonempty string rejected by `datetime.fromisoformat`,
or a successfully parsed timestamp. -/
inductive DateField where
  | absent : DateField
  | unparseable : DateField
  | valid : Nat → DateField
deriving DecidableEq, Repr

/-- Embeds `scheduler.calculate_next_pms_from_contract_date`: hardware
contracts advance 90 days from the contract date, label contracts 30 days,
and any other contract type falls back to 30 days. -/
def calculate_next_pms_from_contract_date (contract_date : Nat)
    (contract_type : String) : Nat :=
  if contract_type = "hardware" then addDays contract_date 90
  else if contract_type = "label" then addDays contract_date 30
  else addDays contract_date 30

/-- Embeds `scheduler.calculate_next_pms_schedule`: `none` is the Python
`None` return used when the contract date is missing or fails to parse;
an absent or unparseable current schedule falls back to computing from the
contract date. -/
def calculate_next_pms_schedule (contract_date : DateField)
    (contract_type : String) (current_schedule : DateField) : Option Nat :=
  match contract_date with
  | .absent => none
  | .unparseable => none
  | .valid cd =>
    match current_schedule with
    | .absent => some (calculate_next_pms_from_contract_date cd contract_type)
    | .unparseable => some (calculate_next_pms_from_contract_date cd contract_type)
    | .valid cs =>
      if contract_type = "hardware" then some (addDays cs 90)
      else if contract_type = "label" then some (addDays cs 30)
      else some (addDays cs 30)

/-- The cadence interval chosen inside `generate_full_pms_schedule`:
90 days for hardware, 30 days for label, 30 days otherwise. -/
def interval_days (contract_type : String) : Nat :=
  if contract_type = "hardware" then 90
  else if contract_type = "label" then 30
  else 30

/-- The `while current_date <= end_date` loop of
`scheduler.generate_full_pms_schedule`: each pass computes
`next_pms = current_date + timedelta(days = interval_days)`, emits it when it
is still `<= end_date`, and continues from it.  (The loop only runs with a
positive interval; the guard `0 < interval` records that and gives the
termination measure.) -/
def pmsLoop (end_date interval : Nat) (current_date : Nat) : List Nat :=
  if h : current_date ≤ end_date ∧ 0 < interval then
    (if current_date + interval * daySecs ≤ end_date
      then [current_date + interval * daySecs] else [])
    ++ pmsLoop end_date interval (current_date + interval * daySecs)
  else []
termination_by end_date + 1 - current_date
decreasing_by
  have hd : 0 < daySecs := by decide
  have : 0 < interval * daySecs := Nat.mul_pos h.2 hd
  omega

/-- Embeds `scheduler.generate_full_pms_schedule`: both dates are required
and must parse, otherwise the result is the empty list; with both dates the
`while` loop walks from the contract date in steps of the class cadence. -/
def generate_full_pms_schedule (contract_date end_date : DateField)
    (contract_type : String) : List Nat :=
  match contract_date, end_date with
  | .valid cd, .valid ed => pmsLoop ed (interval_days contract_type) cd
  | _, _ => []

/-- A row of `hardware_contracts` or `label_contracts`, restricted to the
fields the scheduling engine reads or writes.  Stored date columns that may
be absent or unparseable are `Option Nat`; `sq` is stored as text, exactly
as in the database. -/
structure Contract where
  id : String
  sq : String
  created_at : Nat
  date_of_contract : Option Nat
  end_of_contract : Option Nat
  next_pms_schedule : Option Nat
  status : String
deriving DecidableEq, Repr

/-- A `service_history` row as written by the complete-pms endpoints,
restricted to the fields the claims are about.  `id` is the identifier the
store assigns to the inserted row. -/
structure ServiceEvent where
  id : Nat
  contract_id : String
  contract_type : String
  service_date : Nat
  status : String
deriving DecidableEq, Repr

/-- The relational store as seen by the scheduling engine: the two contract
tables and the append-only service history. -/
structure SysState where
  hardware_contracts : List Contract
  label_contracts : List Contract
  service_history : List ServiceEvent
deriving DecidableEq, Repr

/-- `select * ... eq id` returning the first row, `None` when no row
matches. -/
def findById (contracts : List Contract) (cid : String) : Option Contract :=
  contracts.find? (fun c => c.id = cid)

/-- `update {next_pms_schedule} ... eq id`: rewrite the matching row's
next-due column, leave every other row unchanged. -/
def updateNextPms (contracts : List Contract) (cid : String) (nextPms : Nat) :
    List Contract :=
  contracts.map (fun c =>
    if c.id = cid then { c with next_pms_schedule := some nextPms } else c)

/-- The effective completion date of a complete-pms call: the parsed
caller-supplied date when it parses, otherwise (absent or parse failure)
`datetime.utcnow()`. -/
def effectiveCompletion (completion_date : DateField) (now : Nat) : Nat :=
  match completion_date with
  | .valid d => d
  | .absent => now
  | .unparseable => now

/-- Errors a complete-pms endpoint can signal; `notFound` is the
HTTP 404 raised when the contract id matches no row. -/
inductive PmsError where
  | notFound : PmsError
deriving DecidableEq, Repr

/-- Embeds `contracts.complete_hardware_pms`: look the contract up (404 and
no state change when absent), resolve the effective completion date, append
one completed `service_history` row dated at it, advance the contract's
`next_pms_schedule` to completion + 90 days, and return the new history
row's id together with the new next-due date. -/
def complete_hardware_pms (s : SysState) (cid : String)
    (completion_date : DateField) (now : Nat) :
    SysState × Except PmsError (Nat × Nat) :=
  match findById s.hardware_contracts cid with
  | none => (s, .error .notFound)
  | some _ =>
    let cdt := effectiveCompletion completion_date now
    let ev : ServiceEvent :=
      { id := s.service_history.length, contract_id := cid,
        contract_type := "hardware", service_date := cdt,
        status := "completed" }
    let next_pms := addDays cdt 90
    ({ s with
        service_history := s.service_history ++ [ev],
        hardware_contracts := updateNextPms s.hardware_contracts cid next_pms },
     .ok (ev.id, next_pms))

/-- Embeds `contracts.complete_label_pms`: identical to the hardware
endpoint except that it works on `label_contracts` and advances by
30 days. -/
def complete_label_pms (s : SysState) (cid : String)
    (completion_date : DateField) (now : Nat) :
    SysState × Except PmsError (Nat × Nat) :=
  match findById s.label_contracts cid with
  | none => (s, .error .notFound)
  | some _ =>
    let cdt := effectiveCompletion completion_date now
    let ev : ServiceEvent :=
      { id := s.service_history.length, contract_id := cid,
        contract_type := "label", service_date := cdt,
        status := "completed" }
    let next_pms := addDays cdt 30
    ({ s with
        service_history := s.service_history ++ [ev],
        label_contracts := updateNextPms s.label_contracts cid next_pms },
     .ok (ev.id, next_pms))

/-- The per-row eligibility test of `scheduler.check_expired_contracts`: the
row was fetched by the `status <> expired` query, its `end_of_contract` is
present and parses, and its calendar day is strictly before today's
calendar day (both sides projected through `.date()`). -/
def shouldExpire (today : Nat) (c : Contract) : Bool :=
  decide (c.status ≠ "expired") &&
    match c.end_of_contract with
    | some e => decide (dateOf e < dateOf today)
    | none => false

/-- One row of the expiry sweep: an eligible row has its status set to
`expired`, every other row is left untouched (rows whose end date is
absent or fails to parse are skipped by the per-row exception handler). -/
def expireRow (today : Nat) (c : Contract) : Contract :=
  if shouldExpire today c then { c with status := "expired" } else c

/-- Embeds `scheduler.check_expired_contracts`: both contract tables are
swept row by row (updates are keyed by the row id, so the sweep acts
pointwise), and the counters record how many rows of each table were marked
expired; the second component is their total. -/
def check_expired_contracts (today : Nat) (s : SysState) : SysState × Nat :=
  ({ s with
      hardware_contracts := s.hardware_contracts.map (expireRow today),
      label_contracts := s.label_contracts.map (expireRow today) },
   s.hardware_contracts.countP (shouldExpire today)
     + s.label_contracts.countP (shouldExpire today))

/-- The window test of `scheduler.check_upcoming_maintenance`: the row has a
`next_pms_schedule` and it is not after `utcnow() + timedelta(days = 7)`
(a full timestamp comparison, not a date-only one). -/
def dueSoonPred (now : Nat) (c : Contract) : Bool :=
  match c.next_pms_schedule with
  | some d => decide (d ≤ addDays now 7)
  | none => false

/-- Embeds `scheduler.check_upcoming_maintenance`: both tables are fetched
with a `status <> expired` query, the merge loop re-checks the same status
condition, and the rows flagged for notification are those whose next due
date falls within the 7-day window. -/
def check_upcoming_maintenance (now : Nat) (s : SysState) : List Contract :=
  let hw := s.hardware_contracts.filter (fun c => decide (c.status ≠ "expired"))
  let lb := s.label_contracts.filter (fun c => decide (c.status ≠ "expired"))
  let all := hw.filter (fun c => decide (c.status ≠ "expired"))
    ++ lb.filter (fun c => decide (c.status ≠ "expired"))
  all.filter (dueSoonPred now)

/-- Python `str.strip()` on the space-padded numerals the SQ column holds:
drop leading and trailing blanks. -/
def pyStrip (s : String) : String :=
  ⟨((s.data.dropWhile (fun ch => ch = ' ')).reverse.dropWhile
      (fun ch => ch = ' ')).reverse⟩

/-- Value of a nonempty all-digit character list read in base 10. -/
def decDigits? (cs : List Char) : Option Nat :=
  if cs = [] then none
  else if cs.all (fun ch => ch.isDigit) then
    some (cs.foldl (fun acc ch => acc * 10 + (ch.toNat - 48)) 0)
  else none

/-- Models Python `int(raw)` as applied to the stripped SQ text: succeeds
exactly on nonempty nonnegative decimal numerals, and raises — modelled as
`none` — on anything else (the `except` arm of `_get_next_sq`). -/
def pyInt? (s : String) : Option Nat := decDigits? (pyStrip s).data

/-- Insert one row into a list kept in ascending `created_at` order: the
model of the store's `order by created_at asc` clause. -/
def insertByCreatedAsc (c : Contract) : List Contract → List Contract
  | [] => [c]
  | x :: xs =>
    if c.created_at ≤ x.created_at then c :: x :: xs
    else x :: insertByCreatedAsc c xs

/-- Sort rows by ascending `created_at` (insertion sort). -/
def sortByCreatedAsc : List Contract → List Contract
  | [] => []
  | x :: xs => insertByCreatedAsc x (sortByCreatedAsc xs)

/-- Insert one row into a list kept in descending `created_at` order: the
model of the store's `order by created_at desc` clause. -/
def insertByCreatedDesc (c : Contract) : List Contract → List Contract
  | [] => [c]
  | x :: xs =>
    if x.created_at ≤ c.created_at then c :: x :: xs
    else x :: insertByCreatedDesc c xs

/-- Sort rows by descending `created_at` (insertion sort). -/
def sortByCreatedDesc : List Contract → List Contract
  | [] => []
  | x :: xs => insertByCreatedDesc x (sortByCreatedDesc xs)

/-- Embeds `contracts._get_next_sq`: read the single most recently created
row (`order by created_at desc, limit 1`), strip and parse its SQ text, and
answer that number plus one; an empty table or an SQ that fails to parse
answers `"1"`. -/
def _get_next_sq (rows : List Contract) : String :=
  match (sortByCreatedDesc rows).head? with
  | some r =>
    match pyInt? r.sq with
    | some n => toString (n + 1)
    | none => "1"
  | none => "1"

/-- Embeds `contracts.resequence_hardware_sq` / `resequence_label_sq`: fetch
the class's rows ordered by `created_at` ascending and write `sq := str(idx)`
for `idx = 1, 2, ...` down the list. -/
def resequence_sq (rows : List Contract) : List Contract :=
  (sortByCreatedAsc rows).enum.map
    (fun p => { p.2 with sq := toString (p.1 + 1) })

/-- Two rows whose most recently created member does not carry the
class's largest SQ: row `"A"` (created first) holds SQ `"10"`, row `"B"`
(created later) holds SQ `"2"`. -/
def gapRows : List Contract :=
  [⟨"A", "10", 1, none, none, none, "active"⟩,
   ⟨"B", "2", 2, none, none, none, "active"⟩]

theorem interval_days_pos (ty : String) : 0 < interval_days ty := by
  unfold interval_days
  split
  · decide
  · split <;> decide

theorem pmsLoop_stop (end_date interval current : Nat)
    (h : end_date < current) : pmsLoop end_date interval current = [] := by
  unfold pmsLoop
  rw [dif_neg]
  intro hc
  exact absurd hc.1 (Nat.not_le_of_lt h)

/-- Closed form of the schedule loop: from `current` it emits exactly
`current + (k+1) * step` for `k < (end_date - current) / step`. -/
theorem pmsLoop_closed (end_date interval : Nat) (hI : 0 < interval) :
    ∀ current, pmsLoop end_date interval current =
      (List.range ((end_date - current) / (interval * daySecs))).map
        (fun k => current + (k + 1) * (interval * daySecs)) := by
  have hS : 0 < interval * daySecs := Nat.mul_pos hI (by decide)
  intro current
  by_cases hle : current ≤ end_date
  case neg =>
    have h1 : end_date < current := Nat.lt_of_not_le hle
    have h2 : end_date - current = 0 := Nat.sub_eq_zero_of_le (Nat.le_of_lt h1)
    rw [pmsLoop_stop _ _ _ h1, h2]
    simp
  case pos =>
    generalize hn : (end_date - current) / (interval * daySecs) = n
    induction n generalizing current with
    | zero =>
      have hlt : end_date - current < interval * daySecs := by
        rcases Nat.lt_or_ge (end_date - current) (interval * daySecs) with h | h
        · exact h
        · exact absurd hn (by
            have := Nat.one_le_div_iff hS |>.mpr h
            omega)
      have hnonext : ¬ current + interval * daySecs ≤ end_date := by omega
      unfold pmsLoop
      rw [dif_pos ⟨hle, hI⟩, if_neg hnonext,
        pmsLoop_stop _ _ _ (by omega)]
      simp
    | succ m ih =>
      have hge : interval * daySecs ≤ end_date - current := by
        by_contra hcon
        have : (end_date - current) / (interval * daySecs) = 0 :=
          Nat.div_eq_of_lt (Nat.lt_of_not_le hcon)
        omega
      have hnext : current + interval * daySecs ≤ end_date := by omega
      have hsub : end_date - (current + interval * daySecs)
          = (end_date - current) - interval * daySecs := by omega
      have hdiv : (end_date - (current + interval * daySecs)) / (interval * daySecs) = m := by
        rw [hsub]
        have := Nat.div_eq_sub_div hS hge
        omega
      unfold pmsLoop
      rw [dif_pos ⟨hle, hI⟩, if_pos hnext, ih (current + interval * daySecs) hnext hdiv]
      rw [List.range_succ_eq_map]
      simp only [List.map_cons, List.map_map, List.singleton_append]
      congr 1
      · ring
      · apply List.map_congr_left
        intro k _
        simp only [Function.comp_apply, Nat.succ_eq_add_one]
        ring

/-- Claim C2: with both dates present and parseable and
`anchor <= end`, `generate_full_pms_schedule` emits exactly
`anchor + k * cadence` for `k = 1, 2, ...` while each stays `<= end`
(membership characterization and explicit closed form), the output is
strictly increasing, never contains the anchor itself, and has length
`floor((end - anchor) / cadence)`; when `end < anchor`, or when either
date is absent or unparseable, the result is the empty list. -/
theorem generate_schedule_spec (cd ed : Nat) (ty : String) :
    (cd ≤ ed →
      generate_full_pms_schedule (.valid cd) (.valid ed) ty =
        (List.range ((ed - cd) / (interval_days ty * daySecs))).map
          (fun k => addDays cd ((k + 1) * interval_days ty))
      ∧ (generate_full_pms_schedule (.valid cd) (.valid ed) ty).length
          = (ed - cd) / (interval_days ty * daySecs)
      ∧ List.Pairwise (· < ·) (generate_full_pms_schedule (.valid cd) (.valid ed) ty)
      ∧ cd ∉ generate_full_pms_schedule (.valid cd) (.valid ed) ty
      ∧ ∀ t, t ∈ generate_full_pms_schedule (.valid cd) (.valid ed) ty ↔
          ∃ k, 1 ≤ k ∧ t = addDays cd (k * interval_days ty) ∧ t ≤ ed)
    ∧ (ed < cd → generate_full_pms_schedule (.valid cd) (.valid ed) ty = [])
    ∧ (∀ df : DateField,
        generate_full_pms_schedule .absent df ty = []
        ∧ generate_full_pms_schedule .unparseable df ty = []
        ∧ generate_full_pms_schedule df .absent ty = []
        ∧ generate_full_pms_schedule df .unparseable ty = []) := by
  have hI : 0 < interval_days ty := interval_days_pos ty
  have hS : 0 < interval_days ty * daySecs := Nat.mul_pos hI (by decide)
  have hclosed : generate_full_pms_schedule (.valid cd) (.valid ed) ty =
      (List.range ((ed - cd) / (interval_days ty * daySecs))).map
        (fun k => cd + (k + 1) * (interval_days ty * daySecs)) :=
    pmsLoop_closed ed (interval_days ty) hI cd
  have hforms : ∀ k : Nat, cd + (k + 1) * (interval_days ty * daySecs)
      = addDays cd ((k + 1) * interval_days ty) := by
    intro k
    simp only [addDays]
    ring
  have hclosed2 : generate_full_pms_schedule (.valid cd) (.valid ed) ty =
      (List.range ((ed - cd) / (interval_days ty * daySecs))).map
        (fun k => addDays cd ((k + 1) * interval_days ty)) := by
    rw [hclosed]
    exact List.map_congr_left (fun k _ => hforms k)
  refine ⟨fun hle => ⟨hclosed2, ?_, ?_, ?_, ?_⟩, ?_, ?_⟩
  · rw [hclosed2, List.length_map, List.length_range]
  · rw [hclosed]
    refine List.Pairwise.map _ (fun a b hab => ?_) (List.pairwise_lt_range _)
    have : (a + 1) * (interval_days ty * daySecs)
        < (b + 1) * (interval_days ty * daySecs) :=
      Nat.mul_lt_mul_of_lt_of_le (by omega) (Nat.le_refl _) hS
    omega
  · rw [hclosed]
    intro hmem
    rcases List.mem_map.mp hmem with ⟨k, _, hk⟩
    have : 0 < (k + 1) * (interval_days ty * daySecs) := Nat.mul_pos (by omega) hS
    omega
  · intro t
    rw [hclosed]
    constructor
    · intro hmem
      rcases List.mem_map.mp hmem with ⟨k, hkmem, hk⟩
      have hkrange : k < (ed - cd) / (interval_days ty * daySecs) :=
        List.mem_range.mp hkmem
      refine ⟨k + 1, by omega, ?_, ?_⟩
      · rw [← hk]
        exact (hforms k).symm ▸ rfl
      · have : k + 1 ≤ (ed - cd) / (interval_days ty * daySecs) := hkrange
        have hmul : (k + 1) * (interval_days ty * daySecs) ≤ ed - cd :=
          (Nat.le_div_iff_mul_le hS).mp this
        omega
    · rintro ⟨k, hk1, rfl, hkle⟩
      refine List.mem_map.mpr ⟨k - 1, List.mem_range.mpr ?_, ?_⟩
      · have hmul : k * (interval_days ty * daySecs) ≤ ed - cd := by
          simp only [addDays] at hkle
          have : k * interval_days ty * daySecs
              = k * (interval_days ty * daySecs) := by ring
          omega
        have : k ≤ (ed - cd) / (interval_days ty * daySecs) :=
          (Nat.le_div_iff_mul_le hS).mpr hmul
        omega
      · have : k - 1 + 1 = k := by omega
        rw [hforms, this]
  · intro hlt
    exact pmsLoop_stop ed (interval_days ty) cd hlt
  · intro df
    refine ⟨rfl, rfl, ?_, ?_⟩ <;> cases df <;> rfl

/-- Claim C2, witness: the schedule over a 200-day hardware term starting at
timestamp 0 matches the closed form (two entries, at days 90 and 180). -/
theorem generate_schedule_spec_witness :
    ((0:Nat) ≤ addDays 0 200 ∧
      generate_full_pms_schedule (.valid 0) (.valid (addDays 0 200)) "hardware" =
        (List.range ((addDays 0 200 - 0) / (interval_days "hardware" * daySecs))).map
          (fun k => addDays 0 ((k + 1) * interval_days "hardware")))
    ∧ (List.range ((addDays 0 200 - 0) / (interval_days "hardware" * daySecs))).map
        (fun k => addDays 0 ((k + 1) * interval_days "hardware"))
        = [7776000, 15552000] :=
  ⟨⟨by decide,
    ((generate_schedule_spec 0 (addDays 0 200) "hardware").1 (by decide)).1⟩,
   by decide⟩

/-- Claim C3: `calculate_next_pms_from_contract_date` adds 90 days for
hardware, 30 days for label, and 30 days (the default-to-monthly fallback)
for every other contract type. -/
theorem cadence_of_contract_type (d : Nat) :
    calculate_next_pms_from_contract_date d "hardware" = addDays d 90
    ∧ calculate_next_pms_from_contract_date d "label" = addDays d 30
    ∧ ∀ ty : String, ty ≠ "hardware" → ty ≠ "label" →
        calculate_next_pms_from_contract_date d ty = addDays d 30 := by
  refine ⟨rfl, rfl, ?_⟩
  intro ty hh hl
  simp [calculate_next_pms_from_contract_date, hh, hl]

/-- Claim C3, witness: the fallback arm at the concrete type `"paper"` and
anchor 0. -/
theorem cadence_of_contract_type_witness :
    calculate_next_pms_from_contract_date 0 "paper" = addDays 0 30 :=
  (cadence_of_contract_type 0).2.2 "paper" (by decide) (by decide)

/-- Claim C7: with an absent or unparseable contract (anchor) date,
`calculate_next_pms_schedule` returns `none` — the cannot-schedule signal
surfaced to the caller — and never a substitute date. -/
theorem next_pms_schedule_fails_without_anchor :
    ∀ (ty : String) (cs : DateField),
      calculate_next_pms_schedule .absent ty cs = none
      ∧ calculate_next_pms_schedule .unparseable ty cs = none
      ∧ ∀ d : Nat, calculate_next_pms_schedule .absent ty cs ≠ some d := by
  intro ty cs
  refine ⟨rfl, rfl, ?_⟩
  intro d
  simp [calculate_next_pms_schedule]

theorem findById_updateNextPms (contracts : List Contract) (cid : String)
    (v : Nat) :
    findById (updateNextPms contracts cid v) cid =
      (findById contracts cid).map
        (fun c => { c with next_pms_schedule := some v }) := by
  induction contracts with
  | nil => rfl
  | cons c rest ih =>
    by_cases hc : c.id = cid
    · simp [findById, updateNextPms, List.find?, hc]
    · simp [findById, updateNextPms, List.find?, hc] at ih ⊢
      exact ih

theorem complete_hardware_pms_found (s : SysState) (cid : String)
    (df : DateField) (now : Nat) (c : Contract)
    (h : findById s.hardware_contracts cid = some c) :
    complete_hardware_pms s cid df now =
      ({ s with
          service_history := s.service_history ++
            [{ id := s.service_history.length, contract_id := cid,
               contract_type := "hardware",
               service_date := effectiveCompletion df now,
               status := "completed" }],
          hardware_contracts := updateNextPms s.hardware_contracts cid
            (addDays (effectiveCompletion df now) 90) },
       .ok (s.service_history.length, addDays (effectiveCompletion df now) 90)) := by
  simp [complete_hardware_pms, h]

theorem complete_label_pms_found (s : SysState) (cid : String)
    (df : DateField) (now : Nat) (c : Contract)
    (h : findById s.label_contracts cid = some c) :
    complete_label_pms s cid df now =
      ({ s with
          service_history := s.service_history ++
            [{ id := s.service_history.length, contract_id := cid,
               contract_type := "label",
               service_date := effectiveCompletion df now,
               status := "completed" }],
          label_contracts := updateNextPms s.label_contracts cid
            (addDays (effectiveCompletion df now) 30) },
       .ok (s.service_history.length, addDays (effectiveCompletion df now) 30)) := by
  simp [complete_label_pms, h]

/-- Claim C1: a successful complete-pms call on an existing contract sets
the contract's `next_pms_schedule` to the effective completion date plus the
class cadence (90 days hardware, 30 days label) — computed from the
completion date, for any prior due date held by the contract — appends the
one completed service-history row dated at the completion date, and returns
the new history row's identifier together with the new next-due date. -/
theorem recordCompletion_advances_from_completion (s : SysState)
    (cid : String) (df : DateField) (now : Nat) :
    (∀ c, findById s.hardware_contracts cid = some c →
      (complete_hardware_pms s cid df now).2 =
        .ok (s.service_history.length, addDays (effectiveCompletion df now) 90)
      ∧ findById (complete_hardware_pms s cid df now).1.hardware_contracts cid =
          some { c with next_pms_schedule := some (addDays (effectiveCompletion df now) 90) }
      ∧ (complete_hardware_pms s cid df now).1.service_history =
          s.service_history ++
            [{ id := s.service_history.length, contract_id := cid,
               contract_type := "hardware",
               service_date := effectiveCompletion df now,
               status := "completed" }])
    ∧ (∀ c, findById s.label_contracts cid = some c →
      (complete_label_pms s cid df now).2 =
        .ok (s.service_history.length, addDays (effectiveCompletion df now) 30)
      ∧ findById (complete_label_pms s cid df now).1.label_contracts cid =
          some { c with next_pms_schedule := some (addDays (effectiveCompletion df now) 30) }
      ∧ (complete_label_pms s cid df now).1.service_history =
          s.service_history ++
            [{ id := s.service_history.length, contract_id := cid,
               contract_type := "label",
               service_date := effectiveCompletion df now,
               status := "completed" }]) := by
  constructor
  · intro c h
    rw [complete_hardware_pms_found s cid df now c h]
    refine ⟨rfl, ?_, rfl⟩
    simp [findById_updateNextPms, h]
  · intro c h
    rw [complete_label_pms_found s cid df now c h]
    refine ⟨rfl, ?_, rfl⟩
    simp [findById_updateNextPms, h]

/-- Claim C1, witness: the spec's example — a label contract whose old due
date is 2024-01-01 (epoch day 19723), completed on 2024-01-15 (epoch day
19737), ends up due on 2024-02-14 (epoch day 19767), and the call returns
that date with the id of the created history row. -/
theorem recordCompletion_advances_witness :
    (findById
        [⟨"L1", "1", 0, some 0, some 0, some (19723 * daySecs), "active"⟩]
        "L1" =
      some ⟨"L1", "1", 0, some 0, some 0, some (19723 * daySecs), "active"⟩)
    ∧ ((complete_label_pms
          { hardware_contracts := [],
            label_contracts :=
              [⟨"L1", "1", 0, some 0, some 0, some (19723 * daySecs), "active"⟩],
            service_history := [] }
          "L1" (.valid (19737 * daySecs)) 0).2 =
        .ok (0, addDays (effectiveCompletion (.valid (19737 * daySecs)) 0) 30))
    ∧ addDays (effectiveCompletion (.valid (19737 * daySecs)) 0) 30 =
        19767 * daySecs :=
  ⟨by decide,
   ((recordCompletion_advances_from_completion
      { hardware_contracts := [],
        label_contracts :=
          [⟨"L1", "1", 0, some 0, some 0, some (19723 * daySecs), "active"⟩],
        service_history := [] }
      "L1" (.valid (19737 * daySecs)) 0).2
      ⟨"L1", "1", 0, some 0, some 0, some (19723 * daySecs), "active"⟩
      (by decide)).1,
   by decide⟩

/-- Claim C6: a complete-pms call on a contract id matching no row fails
with `notFound` and returns the store unchanged — no service-history row is
appended and no contract is modified. -/
theorem recordCompletion_notFound (s : SysState) (cid : String)
    (df : DateField) (now : Nat) :
    (findById s.hardware_contracts cid = none →
      complete_hardware_pms s cid df now = (s, .error .notFound))
    ∧ (findById s.label_contracts cid = none →
      complete_label_pms s cid df now = (s, .error .notFound)) := by
  constructor
  · intro h
    simp [complete_hardware_pms, h]
  · intro h
    simp [complete_label_pms, h]

/-- Claim C6, witness: on an empty store the call fails with `notFound`
and the state, including the empty history, is returned intact. -/
theorem recordCompletion_notFound_witness :
    (findById ([] : List Contract) "missing" = none)
    ∧ complete_hardware_pms
        { hardware_contracts := [], label_contracts := [],
          service_history := [] } "missing" .absent 0 =
        ({ hardware_contracts := [], label_contracts := [],
           service_history := [] }, .error .notFound) :=
  ⟨by decide,
   (recordCompletion_notFound
      { hardware_contracts := [], label_contracts := [],
        service_history := [] } "missing" .absent 0).1 (by decide)⟩

/-- Claim C8: when the caller-supplied completion date is absent or fails
to parse, complete-pms substitutes `now` and still succeeds on an existing
contract: the appended history row is dated `now` and the returned next-due
date is `now` plus the class cadence. -/
theorem recordCompletion_parse_fallback (s : SysState) (cid : String)
    (df : DateField) (now : Nat) (hdf : df = .absent ∨ df = .unparseable) :
    effectiveCompletion df now = now
    ∧ (∀ c, findById s.hardware_contracts cid = some c →
        (complete_hardware_pms s cid df now).2 =
          .ok (s.service_history.length, addDays now 90)
        ∧ (complete_hardware_pms s cid df now).1.service_history =
            s.service_history ++
              [{ id := s.service_history.length, contract_id := cid,
                 contract_type := "hardware", service_date := now,
                 status := "completed" }])
    ∧ (∀ c, findById s.label_contracts cid = some c →
        (complete_label_pms s cid df now).2 =
          .ok (s.service_history.length, addDays now 30)
        ∧ (complete_label_pms s cid df now).1.service_history =
            s.service_history ++
              [{ id := s.service_history.length, contract_id := cid,
                 contract_type := "label", service_date := now,
                 status := "completed" }]) := by
  have heff : effectiveCompletion df now = now := by
    rcases hdf with h | h <;> rw [h] <;> rfl
  refine ⟨heff, ?_, ?_⟩
  · intro c h
    rw [complete_hardware_pms_found s cid df now c h, heff]
    exact ⟨rfl, rfl⟩
  · intro c h
    rw [complete_label_pms_found s cid df now c h, heff]
    exact ⟨rfl, rfl⟩

/-- Claim C8, witness: an unparseable completion date on an existing
hardware contract still succeeds, dating the history row at `now` (here
1000) and returning `now` + 90 days. -/
theorem recordCompletion_parse_fallback_witness :
    ((DateField.unparseable = .absent ∨ DateField.unparseable = .unparseable)
      ∧ findById [⟨"H1", "1", 0, some 0, some 0, none, "active"⟩] "H1" =
          some ⟨"H1", "1", 0, some 0, some 0, none, "active"⟩)
    ∧ (complete_hardware_pms
        { hardware_contracts := [⟨"H1", "1", 0, some 0, some 0, none, "active"⟩],
          label_contracts := [], service_history := [] }
        "H1" .unparseable 1000).2 = .ok (0, addDays 1000 90) :=
  ⟨⟨Or.inr rfl, by decide⟩,
   (((recordCompletion_parse_fallback
      { hardware_contracts := [⟨"H1", "1", 0, some 0, some 0, none, "active"⟩],
        label_contracts := [], service_history := [] }
      "H1" .unparseable 1000 (Or.inr rfl)).2.1
      ⟨"H1", "1", 0, some 0, some 0, none, "active"⟩ (by decide)).1)⟩

theorem shouldExpire_expireRow (today : Nat) (c : Contract) :
    shouldExpire today (expireRow today c) = false := by
  by_cases h : shouldExpire today c = true
  · rw [expireRow, if_pos h]
    simp [shouldExpire]
  · rw [expireRow, if_neg h]
    simp at h
    exact h

theorem expireRow_idem (today : Nat) (c : Contract) :
    expireRow today (expireRow today c) = expireRow today c := by
  have h := shouldExpire_expireRow today c
  generalize hg : expireRow today c = c2 at h ⊢
  simp [expireRow, h]

/-- Claim C4: one expiry sweep marks as `expired` exactly the rows that are
not already expired and whose end-of-contract day is strictly before
today's day (absent or unparseable end dates are skipped), it changes
nothing else about any row, its count is the number of rows so marked, the
eligibility test reads only the calendar days of the two timestamps (time
of day is ignored), and the sweep is idempotent: a second run over the
resulting state is a no-op that expires zero contracts. -/
theorem expiry_scan_spec (today : Nat) (s : SysState) :
    ((check_expired_contracts today s).1.hardware_contracts =
        s.hardware_contracts.map (expireRow today)
      ∧ (check_expired_contracts today s).1.label_contracts =
        s.label_contracts.map (expireRow today)
      ∧ (check_expired_contracts today s).1.service_history = s.service_history)
    ∧ (∀ c : Contract,
        ((expireRow today c).status = "expired" ↔
          (c.status = "expired"
            ∨ ∃ e, c.end_of_contract = some e ∧ dateOf e < dateOf today))
        ∧ (c.status = "expired" → expireRow today c = c)
        ∧ (c.end_of_contract = none → expireRow today c = c)
        ∧ (expireRow today c).id = c.id
        ∧ (expireRow today c).next_pms_schedule = c.next_pms_schedule
        ∧ (expireRow today c).end_of_contract = c.end_of_contract)
    ∧ (check_expired_contracts today s).2 =
        s.hardware_contracts.countP (shouldExpire today)
          + s.label_contracts.countP (shouldExpire today)
    ∧ (∀ (c : Contract) (t1 t2 : Nat), dateOf t1 = dateOf t2 →
        shouldExpire t1 c = shouldExpire t2 c)
    ∧ check_expired_contracts today (check_expired_contracts today s).1 =
        ((check_expired_contracts today s).1, 0) := by
  refine ⟨⟨rfl, rfl, rfl⟩, ?_, rfl, ?_, ?_⟩
  · intro c
    refine ⟨?_, ?_, ?_, ?_, ?_, ?_⟩
    · unfold expireRow shouldExpire
      by_cases hs : c.status = "expired"
      · simp [hs]
      · cases he : c.end_of_contract with
        | none => simp [hs, he]
        | some e =>
          by_cases hd : dateOf e < dateOf today
          · simp [hs, he, hd]
          · simp [hs, he, hd]
    · intro hs
      unfold expireRow shouldExpire
      simp [hs]
    · intro he
      unfold expireRow shouldExpire
      simp [he]
    · unfold expireRow
      by_cases h : shouldExpire today c = true <;> simp [h]
    · unfold expireRow
      by_cases h : shouldExpire today c = true <;> simp [h]
    · unfold expireRow
      by_cases h : shouldExpire today c = true <;> simp [h]
  · intro c t1 t2 hdate
    unfold shouldExpire
    rw [hdate]
  · unfold check_expired_contracts
    simp only [List.map_map, List.countP_map]
    have hmapidem : ∀ l : List Contract,
        l.map (expireRow today ∘ expireRow today) = l.map (expireRow today) :=
      fun l => List.map_congr_left (fun c _ => expireRow_idem today c)
    have hcount : ∀ l : List Contract,
        l.countP (shouldExpire today ∘ expireRow today) = 0 := by
      intro l
      apply List.countP_eq_zero.mpr
      intro c _
      simp [Function.comp, shouldExpire_expireRow today c]
    rw [hmapidem, hmapidem, hcount, hcount]

/-- Claim C4, witness: a two-contract store — one past its end date, one
already expired — run through the sweep; the characterization instance at
the eligible row and the idempotence equation, a no-op second run. -/
theorem expiry_scan_spec_witness :
    ((expireRow (40 * daySecs)
        ⟨"H1", "1", 0, some 0, some (3 * daySecs), some 0, "active"⟩).status = "expired" ↔
      ((⟨"H1", "1", 0, some 0, some (3 * daySecs), some 0, "active"⟩ : Contract).status = "expired"
        ∨ ∃ e, (⟨"H1", "1", 0, some 0, some (3 * daySecs), some 0, "active"⟩ : Contract).end_of_contract = some e
            ∧ dateOf e < dateOf (40 * daySecs)))
    ∧ check_expired_contracts (40 * daySecs)
        (check_expired_contracts (40 * daySecs)
          { hardware_contracts :=
              [⟨"H1", "1", 0, some 0, some (3 * daySecs), some 0, "active"⟩,
               ⟨"H2", "2", 0, some 0, some (3 * daySecs), some 0, "expired"⟩],
            label_contracts := [], service_history := [] }).1 =
      ((check_expired_contracts (40 * daySecs)
          { hardware_contracts :=
              [⟨"H1", "1", 0, some 0, some (3 * daySecs), some 0, "active"⟩,
               ⟨"H2", "2", 0, some 0, some (3 * daySecs), some 0, "expired"⟩],
            label_contracts := [], service_history := [] }).1, 0) :=
  ⟨((expiry_scan_spec (40 * daySecs)
      { hardware_contracts :=
          [⟨"H1", "1", 0, some 0, some (3 * daySecs), some 0, "active"⟩,
           ⟨"H2", "2", 0, some 0, some (3 * daySecs), some 0, "expired"⟩],
        label_contracts := [], service_history := [] }).2.1
      ⟨"H1", "1", 0, some 0, some (3 * daySecs), some 0, "active"⟩).1,
   (expiry_scan_spec (40 * daySecs)
      { hardware_contracts :=
          [⟨"H1", "1", 0, some 0, some (3 * daySecs), some 0, "active"⟩,
           ⟨"H2", "2", 0, some 0, some (3 * daySecs), some 0, "expired"⟩],
        label_contracts := [], service_history := [] }).2.2.2.2⟩

theorem dueSoonPred_iff (now : Nat) (c : Contract) :
    dueSoonPred now c = true ↔
      ∃ d, c.next_pms_schedule = some d ∧ d ≤ addDays now 7 := by
  unfold dueSoonPred
  cases h : c.next_pms_schedule with
  | none => simp
  | some d => simp

/-- Claim C5: the rows flagged by the 7-day due-soon scan are exactly the
contracts of either table whose status is not `expired` and whose next due
date exists and is at most `now` + 7 days; in particular an expired
contract is never flagged, whatever its due date. -/
theorem due_soon_scan_spec (now : Nat) (s : SysState) :
    (∀ c : Contract,
      c ∈ check_upcoming_maintenance now s ↔
        ((c ∈ s.hardware_contracts ∨ c ∈ s.label_contracts)
          ∧ c.status ≠ "expired"
          ∧ ∃ d, c.next_pms_schedule = some d ∧ d ≤ addDays now 7))
    ∧ (∀ c : Contract, c ∈ check_upcoming_maintenance now s →
        c.status ≠ "expired") := by
  have hmem : ∀ c : Contract,
      c ∈ check_upcoming_maintenance now s ↔
        ((c ∈ s.hardware_contracts ∨ c ∈ s.label_contracts)
          ∧ c.status ≠ "expired"
          ∧ ∃ d, c.next_pms_schedule = some d ∧ d ≤ addDays now 7) := by
    intro c
    unfold check_upcoming_maintenance
    simp only [List.mem_filter, List.mem_append, decide_eq_true_eq,
      dueSoonPred_iff]
    tauto
  exact ⟨hmem, fun c hc => ((hmem c).mp hc).2.1⟩

/-- Claim C5, witness: a store holding one active and one expired contract,
both due inside the window; the flagged row is the active one and the
theorem yields its non-expired status; the expired row is absent from the
scan's output. -/

theorem due_soon_scan_spec_witness :
    (⟨"H1", "1", 0, some 0, some 0, some 0, "active"⟩ : Contract) ∈
      check_upcoming_maintenance 0
        { hardware_contracts :=
            [⟨"H1", "1", 0, some 0, some 0, some 0, "active"⟩,
             ⟨"H2", "2", 0, some 0, some 0, some 0, "expired"⟩],
          label_contracts := [], service_history := [] }
    ∧ (⟨"H1", "1", 0, some 0, some 0, some 0, "active"⟩ : Contract).status ≠ "expired"
    ∧ check_upcoming_maintenance 0
        { hardware_contracts :=
            [⟨"H1", "1", 0, some 0, some 0, some 0, "active"⟩,
             ⟨"H2", "2", 0, some 0, some 0, some 0, "expired"⟩],
          label_contracts := [], service_history := [] } =
        [⟨"H1", "1", 0, some 0, some 0, some 0, "active"⟩] :=
  ⟨by decide,
   (due_soon_scan_spec 0
      { hardware_contracts :=
          [⟨"H1", "1", 0, some 0, some 0, some 0, "active"⟩,
           ⟨"H2", "2", 0, some 0, some 0, some 0, "expired"⟩],
        label_contracts := [], service_history := [] }).2
      ⟨"H1", "1", 0, some 0, some 0, some 0, "active"⟩ (by decide),
   by decide⟩

theorem length_insertByCreatedAsc (c : Contract) (l : List Contract) :
    (insertByCreatedAsc c l).length = l.length + 1 := by
  induction l with
  | nil => rfl
  | cons x xs ih =>
    unfold insertByCreatedAsc
    by_cases h : c.created_at ≤ x.created_at
    · simp [h]
    · simp [h, ih]

theorem length_sortByCreatedAsc (l : List Contract) :
    (sortByCreatedAsc l).length = l.length := by
  induction l with
  | nil => rfl
  | cons x xs ih =>
    unfold sortByCreatedAsc
    rw [length_insertByCreatedAsc, ih]
    rfl

theorem mem_insertByCreatedAsc (b c : Contract) (l : List Contract) :
    b ∈ insertByCreatedAsc c l ↔ b = c ∨ b ∈ l := by
  induction l with
  | nil => simp [insertByCreatedAsc]
  | cons x xs ih =>
    unfold insertByCreatedAsc
    by_cases h : c.created_at ≤ x.created_at
    · simp [h]
    · simp [h, ih]
      tauto

theorem pairwise_insertByCreatedAsc (c : Contract) (l : List Contract)
    (h : l.Pairwise (fun a b => a.created_at ≤ b.created_at)) :
    (insertByCreatedAsc c l).Pairwise
      (fun a b => a.created_at ≤ b.created_at) := by
  induction l with
  | nil => simp [insertByCreatedAsc]
  | cons x xs ih =>
    rcases List.pairwise_cons.mp h with ⟨hx, hxs⟩
    unfold insertByCreatedAsc
    by_cases hc : c.created_at ≤ x.created_at
    · rw [if_pos hc]
      refine List.pairwise_cons.mpr ⟨?_, h⟩
      intro b hb
      rcases List.mem_cons.mp hb with rfl | hbxs
      · exact hc
      · exact Nat.le_trans hc (hx b hbxs)
    · rw [if_neg hc]
      refine List.pairwise_cons.mpr ⟨?_, ih hxs⟩
      intro b hb
      rcases (mem_insertByCreatedAsc b c xs).mp hb with rfl | hbxs
      · omega
      · exact hx b hbxs

theorem pairwise_sortByCreatedAsc (l : List Contract) :
    (sortByCreatedAsc l).Pairwise (fun a b => a.created_at ≤ b.created_at) := by
  induction l with
  | nil => simp [sortByCreatedAsc]
  | cons x xs ih =>
    exact pairwise_insertByCreatedAsc x (sortByCreatedAsc xs) ih

/-- Claim C9: resequencing assigns SQ texts by creation order — the list of
SQs after the operation is exactly `"1", "2", ..., "N"` where `N` is the
number of contracts in the class, whatever SQs (including gapped ones left
by deletions) the rows held before; the row count is preserved and the
output is ordered by creation time. -/
theorem resequence_sq_spec (rows : List Contract) :
    (resequence_sq rows).map (fun c => c.sq) =
      (List.range rows.length).map (fun i => toString (i + 1))
    ∧ (resequence_sq rows).length = rows.length
    ∧ (resequence_sq rows).Pairwise (fun a b => a.created_at ≤ b.created_at) := by
  have hlen : (sortByCreatedAsc rows).length = rows.length :=
    length_sortByCreatedAsc rows
  refine ⟨?_, ?_, ?_⟩
  · unfold resequence_sq
    rw [List.map_map]
    have h1 : ((fun c => c.sq) ∘ fun p : Nat × Contract =>
        ({ p.2 with sq := toString (p.1 + 1) } : Contract))
        = (fun i => toString (i + 1)) ∘ Prod.fst := rfl
    rw [h1, ← List.map_map, List.enum_map_fst, hlen]
  · unfold resequence_sq
    rw [List.length_map, List.enum_length, hlen]
  · unfold resequence_sq
    rw [List.pairwise_map]
    have hsnd : ((sortByCreatedAsc rows).enum.map Prod.snd).Pairwise
        (fun a b => a.created_at ≤ b.created_at) := by
      rw [List.enum_map_snd]
      exact pairwise_sortByCreatedAsc rows
    have := List.pairwise_map.mp hsnd
    exact this.imp (fun h => h)

/-- Claim C10, counterexample: `_get_next_sq` reads only the most recently
created row, so over `gapRows` it answers `"3"` (the later row's SQ `"2"`
plus one), which is not greater than the SQ `10` already present on the
earlier row — the claim as stated fails on this store. -/
theorem get_next_sq_not_above_all :
    ¬ (∀ c ∈ gapRows, ∀ v : Nat, pyInt? c.sq = some v →
        ∀ w : Nat, pyInt? (_get_next_sq gapRows) = some w → v < w) := by
  intro h
  have h10 : (10 : Nat) < 3 :=
    h ⟨"A", "10", 1, none, none, none, "active"⟩ (by decide) 10 (by decide)
      3 (by decide)
  omega

/-- Claim C10, amended: the SQ auto-assigned when the caller leaves it
blank is one more than the numeric SQ of the most recently created row of
the class; therefore it is strictly greater than every numeric SQ already
present whenever the most recently created row carries the class's largest
SQ — the invariant normal auto-assigned creation maintains — but not in
general (see the counterexample, where an older row holds a larger,
manually assigned SQ). -/
theorem get_next_sq_above_all (rows : List Contract) (r : Contract) (n : Nat)
    (hhead : (sortByCreatedDesc rows).head? = some r)
    (hr : pyInt? r.sq = some n)
    (hmax : ∀ c ∈ rows, (pyInt? c.sq).getD 0 ≤ n) :
    _get_next_sq rows = toString (n + 1)
    ∧ ∀ c ∈ rows, ∀ v : Nat, pyInt? c.sq = some v → v < n + 1 := by
  constructor
  · unfold _get_next_sq
    rw [hhead]
    simp only []
    rw [hr]
  · intro c hc v hv
    have hle := hmax c hc
    rw [hv] at hle
    simp only [Option.getD_some] at hle
    omega

/-- Claim C10, witness: two rows created in order with SQs `"1"` then
`"2"`; the newest row holds the maximum, the auto-assigned SQ is `"3"`,
and `3` exceeds both numeric SQs present. -/
theorem get_next_sq_above_all_witness :
    ((sortByCreatedDesc
        [⟨"A", "1", 1, none, none, none, "active"⟩,
         ⟨"B", "2", 2, none, none, none, "active"⟩]).head? =
      some ⟨"B", "2", 2, none, none, none, "active"⟩
      ∧ pyInt? (Contract.sq ⟨"B", "2", 2, none, none, none, "active"⟩) = some 2
      ∧ ∀ c ∈ [(⟨"A", "1", 1, none, none, none, "active"⟩ : Contract),
               ⟨"B", "2", 2, none, none, none, "active"⟩],
          (pyInt? c.sq).getD 0 ≤ 2)
    ∧ _get_next_sq
        [⟨"A", "1", 1, none, none, none, "active"⟩,
         ⟨"B", "2", 2, none, none, none, "active"⟩] = toString (2 + 1) :=
  ⟨⟨by decide, by decide, by decide⟩,
   (get_next_sq_above_all
      [⟨"A", "1", 1, none, none, none, "active"⟩,
       ⟨"B", "2", 2, none, none, none, "active"⟩]
      ⟨"B", "2", 2, none, none, none, "active"⟩ 2
      (by decide) (by decide) (by decide)).1⟩

end PMS
